import Mathlib

/-!
Shallow embedding of the `lehar-magazine` static-site generator
(`src/main.rs`): data model, HTML escaping, date-based issue sorting,
fragment rendering and template substitution, together with proofs of the
specified properties.

Strings are modelled through their character lists (`String.data`); ASCII
digits stand for the digit characters matched by the date pattern.
-/

/-- The apostrophe character (U+0027), the fifth character escaped by
`escape_html`. -/
def apos : Char := Char.ofNat 39

/-- `site_meta` of the input document (`struct SiteMeta` in `main.rs`). -/
structure SiteMeta where
  site_name : String
  default_description : String
  base_url : String
  logo : String
deriving DecidableEq

/-- One issue record (`struct Issue` in `main.rs`). -/
structure Issue where
  title : String
  pdf : String
  cover : String
  description : Option String
deriving DecidableEq

/-- The root input document (`struct Metadata` in `main.rs`). -/
structure Metadata where
  site_meta : SiteMeta
  issues : List Issue
deriving DecidableEq

/-! ## HTML escaping (`escape_html` in `main.rs`)

Rust's `str::replace` with a single-character pattern replaces every
occurrence of that character by the replacement string; `escape_html` chains
five such passes, `&` first. -/

/-- One pass of `str::replace(c, r)` over a character list. -/
def replaceChar (c : Char) (r : List Char) : List Char → List Char
  | [] => []
  | x :: xs => (if x = c then r else [x]) ++ replaceChar c r xs

/-- The five replacement passes of `escape_html`, on character lists:
`&` → `&amp;`, `<` → `&lt;`, `>` → `&gt;`, `"` → `&quot;`, `'` → `&#x27;`,
applied in that order. -/
def escape_htmlL (s : List Char) : List Char :=
  replaceChar apos "&#x27;".data
    (replaceChar '"' "&quot;".data
      (replaceChar '>' "&gt;".data
        (replaceChar '<' "&lt;".data
          (replaceChar '&' "&amp;".data s))))

/-- `escape_html` of `main.rs`. -/
def escape_html (s : String) : String :=
  ⟨escape_htmlL s.data⟩

/-- What one input character contributes to the escaped output. -/
def escChar (c : Char) : List Char :=
  if c = '&' then "&amp;".data
  else if c = '<' then "&lt;".data
  else if c = '>' then "&gt;".data
  else if c = '"' then "&quot;".data
  else if c = apos then "&#x27;".data
  else [c]

/-- The five characters `escape_html` rewrites. -/
def specialChars : List Char := ['&', '<', '>', '"', apos]

theorem replaceChar_append (c : Char) (r xs ys : List Char) :
    replaceChar c r (xs ++ ys) = replaceChar c r xs ++ replaceChar c r ys := by
  induction xs with
  | nil => rfl
  | cons x xs ih => simp [replaceChar, ih]

theorem escape_htmlL_append (xs ys : List Char) :
    escape_htmlL (xs ++ ys) = escape_htmlL xs ++ escape_htmlL ys := by
  simp [escape_htmlL, replaceChar_append]

theorem escape_htmlL_single (c : Char) : escape_htmlL [c] = escChar c := by
  by_cases h1 : c = '&'
  · subst h1; rfl
  · by_cases h2 : c = '<'
    · subst h2; rfl
    · by_cases h3 : c = '>'
      · subst h3; rfl
      · by_cases h4 : c = '"'
        · subst h4; rfl
        · by_cases h5 : c = apos
          · subst h5; rfl
          · simp [escape_htmlL, replaceChar, escChar, h1, h2, h3, h4, h5]

/-- `escape_html` acts independently on each character: the output is the
concatenation of the per-character blocks `escChar`. -/
theorem escape_htmlL_eq_flatten (s : List Char) :
    escape_htmlL s = (s.map escChar).flatten := by
  induction s with
  | nil => rfl
  | cons c cs ih =>
      have : c :: cs = [c] ++ cs := rfl
      rw [this, escape_htmlL_append, escape_htmlL_single, ih]
      simp

theorem amp_entity_ok : ∀ x ∈ "&amp;".data, x ≠ '<' ∧ x ≠ '>' ∧ x ≠ '"' ∧ x ≠ apos := by
  decide

theorem lt_entity_ok : ∀ x ∈ "&lt;".data, x ≠ '<' ∧ x ≠ '>' ∧ x ≠ '"' ∧ x ≠ apos := by
  decide

theorem gt_entity_ok : ∀ x ∈ "&gt;".data, x ≠ '<' ∧ x ≠ '>' ∧ x ≠ '"' ∧ x ≠ apos := by
  decide

theorem quot_entity_ok : ∀ x ∈ "&quot;".data, x ≠ '<' ∧ x ≠ '>' ∧ x ≠ '"' ∧ x ≠ apos := by
  decide

theorem apos_entity_ok : ∀ x ∈ "&#x27;".data, x ≠ '<' ∧ x ≠ '>' ∧ x ≠ '"' ∧ x ≠ apos := by
  decide

theorem escChar_not_special {c x : Char} (hx : x ∈ escChar c) :
    x ≠ '<' ∧ x ≠ '>' ∧ x ≠ '"' ∧ x ≠ apos := by
  unfold escChar at hx
  split_ifs at hx with h1 h2 h3 h4 h5
  · exact amp_entity_ok x hx
  · exact lt_entity_ok x hx
  · exact gt_entity_ok x hx
  · exact quot_entity_ok x hx
  · exact apos_entity_ok x hx
  · simp only [List.mem_singleton] at hx
    subst hx
    exact ⟨h2, h3, h4, h5⟩

/-- The escaped output never contains a raw `<`, `>`, `"` or `'`. -/
theorem escape_htmlL_no_special (s : List Char) :
    '<' ∉ escape_htmlL s ∧ '>' ∉ escape_htmlL s ∧
    '"' ∉ escape_htmlL s ∧ apos ∉ escape_htmlL s := by
  rw [escape_htmlL_eq_flatten]
  refine ⟨?_, ?_, ?_, ?_⟩ <;>
    · intro hmem
      rw [List.mem_flatten] at hmem
      obtain ⟨l, hl, hx⟩ := hmem
      rw [List.mem_map] at hl
      obtain ⟨c, _, rfl⟩ := hl
      have := escChar_not_special hx
      simp at this

theorem escChar_length_pos (c : Char) : 1 ≤ (escChar c).length := by
  unfold escChar
  split_ifs <;> first | decide | simp

theorem flatten_escChar_length_ge (s : List Char) :
    s.length ≤ ((s.map escChar).flatten).length := by
  induction s with
  | nil => simp
  | cons c cs ih =>
      simp only [List.map_cons, List.flatten_cons, List.length_append, List.length_cons]
      have := escChar_length_pos c
      omega

theorem flatten_escChar_length_gt {s : List Char} (h : '&' ∈ s) :
    s.length < ((s.map escChar).flatten).length := by
  induction s with
  | nil => simp at h
  | cons c cs ih =>
      simp only [List.map_cons, List.flatten_cons, List.length_append, List.length_cons]
      rcases List.mem_cons.mp h with rfl | hmem
      · have h5 : (escChar '&').length = 5 := by decide
        have := flatten_escChar_length_ge cs
        omega
      · have := ih hmem
        have := escChar_length_pos c
        omega

theorem amp_mem_escChar {c : Char} (h : c ∈ specialChars) : '&' ∈ escChar c := by
  simp only [specialChars, List.mem_cons, List.not_mem_nil, or_false] at h
  rcases h with rfl | rfl | rfl | rfl | rfl <;> decide

theorem amp_mem_escape {s : List Char} {c : Char} (hc : c ∈ s) (hs : c ∈ specialChars) :
    '&' ∈ escape_htmlL s := by
  rw [escape_htmlL_eq_flatten, List.mem_flatten]
  exact ⟨escChar c, List.mem_map.mpr ⟨c, hc, rfl⟩, amp_mem_escChar hs⟩

/-! ## Issue sorting (`sort_issues` in `main.rs`)

The sort key is the first `DDDD-DD-DD` substring of the issue's `pdf` field
(regex `(\d{4})-(\d{2})-(\d{2})`, leftmost match; digits modelled as ASCII
digits), parsed as a (year, month, day) triple, with fallback (0, 1, 1) when
no such substring exists. `Vec::sort_by` is a stable sort; it is modelled by
a stable insertion sort over the same comparator. -/

/-- Numeric value of an ASCII digit character (`str::parse` on a digit run). -/
def digitVal (c : Char) : Nat := c.toNat - '0'.toNat

/-- `str::parse::<Nat>` on a run of digits. -/
def parseDigits (l : List Char) : Nat := l.foldl (fun n c => n * 10 + digitVal c) 0

/-- The date pattern matched at the start of the given character list:
four digits, `-`, two digits, `-`, two digits. -/
def matchDateAt : List Char → Option (Nat × Nat × Nat)
  | y1 :: y2 :: y3 :: y4 :: s1 :: m1 :: m2 :: s2 :: d1 :: d2 :: _ =>
    if y1.isDigit && y2.isDigit && y3.isDigit && y4.isDigit && s1 == '-' &&
       m1.isDigit && m2.isDigit && s2 == '-' && d1.isDigit && d2.isDigit then
      some (parseDigits [y1, y2, y3, y4], parseDigits [m1, m2], parseDigits [d1, d2])
    else
      none
  | _ => none

/-- Leftmost match of the date pattern (`Regex::captures` finds the
earliest-starting match). -/
def findDate : List Char → Option (Nat × Nat × Nat)
  | [] => none
  | c :: cs =>
    match matchDateAt (c :: cs) with
    | some t => some t
    | none => findDate cs

/-- `get_date_tuple` of `sort_issues`: the extracted date, or (0, 1, 1) for a
string without the date pattern. -/
def get_date_tuple (filename : String) : Nat × Nat × Nat :=
  (findDate filename.data).getD (0, 1, 1)

/-- Lexicographic `≤` on (year, month, day) triples (tuple `cmp` ≠ `Greater`). -/
def dateLe (a b : Nat × Nat × Nat) : Bool :=
  Nat.blt a.1 b.1 ||
    (a.1 == b.1 && (Nat.blt a.2.1 b.2.1 || (a.2.1 == b.2.1 && Nat.ble a.2.2 b.2.2)))

/-- The comparator passed to `sort_by`: `a` may precede `b` exactly when
`b`'s key is lexicographically at most `a`'s key (descending order). -/
def issue_le (a b : Issue) : Bool :=
  dateLe (get_date_tuple b.pdf) (get_date_tuple a.pdf)

/-- Insert into a sorted list, before the first element the inserted one may
precede: the insertion step of a stable insertion sort. -/
def insertBy (le : α → α → Bool) (a : α) : List α → List α
  | [] => [a]
  | b :: l => if le a b then a :: b :: l else b :: insertBy le a l

/-- Stable insertion sort: the model of `Vec::sort_by` (a stable sort). -/
def sortBy (le : α → α → Bool) : List α → List α
  | [] => []
  | a :: l => insertBy le a (sortBy le l)

/-- `sort_issues` of `main.rs`. -/
def sort_issues (issues : List Issue) : List Issue :=
  sortBy issue_le issues

theorem dateLe_iff (a b : Nat × Nat × Nat) :
    dateLe a b = true ↔
      a.1 < b.1 ∨ (a.1 = b.1 ∧ (a.2.1 < b.2.1 ∨ (a.2.1 = b.2.1 ∧ a.2.2 ≤ b.2.2))) := by
  simp only [dateLe, Bool.or_eq_true, Bool.and_eq_true, Nat.blt_eq, Nat.ble_eq, beq_iff_eq]

theorem dateLe_total (a b : Nat × Nat × Nat) : dateLe a b = true ∨ dateLe b a = true := by
  rw [dateLe_iff, dateLe_iff]
  omega

theorem dateLe_trans {a b c : Nat × Nat × Nat}
    (hab : dateLe a b = true) (hbc : dateLe b c = true) : dateLe a c = true := by
  rw [dateLe_iff] at hab hbc ⊢
  omega

theorem issue_le_total (a b : Issue) : issue_le a b = true ∨ issue_le b a = true := by
  unfold issue_le
  exact (dateLe_total _ _).symm

theorem issue_le_trans {a b c : Issue}
    (hab : issue_le a b = true) (hbc : issue_le b c = true) : issue_le a c = true :=
  dateLe_trans hbc hab

theorem insertBy_perm (le : α → α → Bool) (a : α) (l : List α) :
    (insertBy le a l).Perm (a :: l) := by
  induction l with
  | nil => exact List.Perm.refl _
  | cons b bs ih =>
      unfold insertBy
      split
      · exact List.Perm.refl _
      · exact ((ih.cons b).trans (List.Perm.swap a b bs)).symm.symm

theorem sortBy_perm (le : α → α → Bool) (l : List α) : (sortBy le l).Perm l := by
  induction l with
  | nil => exact List.Perm.refl _
  | cons a l ih => exact (insertBy_perm le a (sortBy le l)).trans (ih.cons a)

theorem insertBy_pairwise (le : α → α → Bool)
    (htot : ∀ a b, le a b = true ∨ le b a = true)
    (htrans : ∀ {a b c}, le a b = true → le b c = true → le a c = true)
    (a : α) {l : List α} (h : l.Pairwise (fun x y => le x y = true)) :
    (insertBy le a l).Pairwise (fun x y => le x y = true) := by
  induction l with
  | nil => simp [insertBy]
  | cons b bs ih =>
      rcases List.pairwise_cons.mp h with ⟨hb, hbs⟩
      unfold insertBy
      split
      · rename_i hab
        refine List.pairwise_cons.mpr ⟨?_, h⟩
        intro y hy
        rcases List.mem_cons.mp hy with rfl | hmem
        · exact hab
        · exact htrans hab (hb y hmem)
      · rename_i hab
        have hba : le b a = true := by
          rcases htot a b with h' | h'
          · exact absurd h' hab
          · exact h'
        refine List.pairwise_cons.mpr ⟨?_, ih hbs⟩
        intro y hy
        have := (insertBy_perm le a bs).mem_iff.mp hy
        rcases List.mem_cons.mp this with rfl | hmem
        · exact hba
        · exact hb y hmem

theorem sortBy_pairwise (le : α → α → Bool)
    (htot : ∀ a b, le a b = true ∨ le b a = true)
    (htrans : ∀ {a b c}, le a b = true → le b c = true → le a c = true)
    (l : List α) : (sortBy le l).Pairwise (fun x y => le x y = true) := by
  induction l with
  | nil => simp [sortBy]
  | cons a l ih => exact insertBy_pairwise le htot htrans a ih

theorem insertBy_filter (le : α → α → Bool) (p : α → Bool) (a : α) (l : List α)
    (hp : ∀ y, p a = true → le a y = false → p y = false) :
    (insertBy le a l).filter p = (a :: l).filter p := by
  induction l with
  | nil => rfl
  | cons b bs ih =>
      unfold insertBy
      split
      · rfl
      · rename_i hab
        by_cases hpa : p a = true
        · have hpb : p b = false := hp b hpa (Bool.eq_false_iff.mpr hab)
          simp only [List.filter_cons, hpb, hpa, if_true, Bool.false_eq_true, if_false, ih]
        · have hpa' : p a = false := Bool.eq_false_iff.mpr hpa
          simp only [List.filter_cons, hpa', Bool.false_eq_true, if_false] at ih ⊢
          rw [ih]

theorem sortBy_filter (le : α → α → Bool) (p : α → Bool) (l : List α)
    (hp : ∀ x y, p x = true → le x y = false → p y = false) :
    (sortBy le l).filter p = l.filter p := by
  induction l with
  | nil => rfl
  | cons a l ih =>
      unfold sortBy
      rw [insertBy_filter le p a (sortBy le l) (hp a)]
      simp only [List.filter_cons]
      rw [ih]

/-! ## HTML rendering (`build_issue_cards`, `format_og_tags`,
`format_default_og_tags` and the logo fragment of `main` in `main.rs`) -/

/-- The fixed description used when an issue has none. -/
def fallback_description : String := "Download this issue to read the full content."

/-- The fixed empty-state fragment returned for zero issues. -/
def empty_state_html : String :=
  "<div class=\"empty-state\">\n    <h2>No Issues Available</h2>\n    <p>Check back soon for new content!</p>\n</div>"

/-- One issue card, as formatted inside `build_issue_cards`. -/
def issue_card (issue : Issue) : String :=
  let description := issue.description.getD fallback_description
  "<div class=\"issue-card\">\n    <div class=\"image-container\">\n        <img src=\""
    ++ escape_html issue.cover ++ "\" alt=\"" ++ escape_html issue.title
    ++ "\" loading=\"lazy\">\n    </div>\n    <div class=\"content\">\n        <h3>"
    ++ escape_html issue.title ++ "</h3>\n        <p>" ++ escape_html description
    ++ "</p>\n        <a href=\"" ++ escape_html issue.pdf
    ++ "\" class=\"download-btn\" download>Download PDF</a>\n    </div>\n</div>"

/-- `build_issue_cards` of `main.rs`. -/
def build_issue_cards (issues : List Issue) : String :=
  if issues.isEmpty then
    empty_state_html
  else
    String.intercalate "\n" (issues.map issue_card)

/-- `str::trim_end_matches('/')`: drop every trailing `/`. -/
def trim_end_slashes (s : String) : String :=
  ⟨(s.data.reverse.dropWhile (· == '/')).reverse⟩

/-- `format_og_tags` of `main.rs`: the social-tag fragment built from the
site metadata and the most recent issue. -/
def format_og_tags (site_meta : SiteMeta) (issue : Issue) : String :=
  let desc := issue.description.getD site_meta.default_description
  "<meta property=\"og:title\" content=\"" ++ escape_html issue.title ++ " | "
    ++ escape_html site_meta.site_name
    ++ "\">\n    <meta property=\"og:description\" content=\"" ++ escape_html desc
    ++ "\">\n    <meta property=\"og:image\" content=\""
    ++ trim_end_slashes site_meta.base_url ++ "/" ++ escape_html issue.cover
    ++ "\">\n    <meta property=\"og:site_name\" content=\"" ++ escape_html site_meta.site_name
    ++ "\">\n    <meta property=\"og:type\" content=\"website\">\n    <meta property=\"og:locale\" content=\"pa_IN\">\n    <meta name=\"twitter:card\" content=\"summary_large_image\">\n    <meta name=\"twitter:image\" content=\""
    ++ trim_end_slashes site_meta.base_url ++ "/" ++ escape_html issue.cover
    ++ "\">\n    <meta name=\"description\" content=\"" ++ escape_html desc ++ "\">"

/-- `format_default_og_tags` of `main.rs`: the reduced social-tag fragment
used when there are no issues. -/
def format_default_og_tags (site_meta : SiteMeta) : String :=
  "<meta property=\"og:title\" content=\"" ++ escape_html site_meta.site_name
    ++ "\">\n    <meta property=\"og:description\" content=\""
    ++ escape_html site_meta.default_description
    ++ "\">\n    <meta property=\"og:site_name\" content=\"" ++ escape_html site_meta.site_name
    ++ "\">\n    <meta property=\"og:type\" content=\"website\">\n    <meta property=\"og:locale\" content=\"pa_IN\">\n    <meta name=\"twitter:card\" content=\"summary\">\n    <meta name=\"description\" content=\""
    ++ escape_html site_meta.default_description ++ "\">"

/-- The logo fragment computed inline in `main`: an `<img>` tag when `logo`
is non-empty, the empty string otherwise. Neither value is escaped. -/
def logo_html (site_meta : SiteMeta) : String :=
  if !site_meta.logo.isEmpty then
    "<img src=\"" ++ site_meta.logo ++ "\" alt=\"" ++ site_meta.site_name ++ " Logo\">"
  else
    ""

/-! ## Template substitution (`str::replace` and `main` in `main.rs`) -/

/-- The worker behind `str::replace`: scan left to right; at skip count 0,
an occurrence of the pattern emits the replacement and skips the rest of the
matched text (the replacement is never rescanned); otherwise the character
is copied. -/
def replaceGo (pat rep : List Char) : Nat → List Char → List Char
  | 0, [] => []
  | 0, c :: cs =>
    if pat.isPrefixOf (c :: cs) then
      rep ++ replaceGo pat rep (pat.length - 1) cs
    else
      c :: replaceGo pat rep 0 cs
  | _ + 1, [] => []
  | k + 1, _ :: cs => replaceGo pat rep k cs

/-- `s.replace(pat, rep)` of Rust (for the non-empty patterns used here):
every non-overlapping occurrence of `pat` in `s`, found left to right, is
replaced by `rep`. -/
def strReplace (s pat rep : String) : String :=
  ⟨replaceGo pat.data rep.data 0 s.data⟩

/-- The social-tag fragment `main` selects: built from the first sorted
issue when one exists (`sorted.first()`), else the default fragment. -/
def og_tags_of (meta : Metadata) : String :=
  match (sort_issues meta.issues).head? with
  | some latest => format_og_tags meta.site_meta latest
  | none => format_default_og_tags meta.site_meta

/-- The pure core of `main`: sort, render the three fragments, and perform
the four placeholder replacements on the template, in source order. -/
def generate (meta : Metadata) (html_template : String) : String :=
  strReplace
    (strReplace
      (strReplace
        (strReplace html_template "\x7b\x7bOG_TAGS\x7d\x7d" (og_tags_of meta))
        "\x7b\x7bISSUE_CARDS\x7d\x7d" (build_issue_cards (sort_issues meta.issues)))
      "\x7b\x7bPAGE_TITLE\x7d\x7d" meta.site_meta.site_name)
    "\x7b\x7bLOGO\x7d\x7d" (logo_html meta.site_meta)

/-! ## The program (`main` in `main.rs`), with file I/O abstracted:
reads are a partial map from path to contents, the produced write is the
result. -/

/-- The failures `main` can propagate before writing: a failed read
(`fs::read_to_string`) or a failed parse (`serde_json::from_str`). -/
inductive MainError where
  | readError (path : String)
  | parseError
deriving DecidableEq

/-- `main` of `main.rs` over an abstract file system `readFile` and an
abstract JSON parser `parseMeta`: read `metadata.json`, parse it, read
`index.template.html`, and produce the single write of `index.html`; each
`?` propagates its error, and no write happens on any error. -/
def mainModel (readFile : String → Option String)
    (parseMeta : String → Option Metadata) :
    Except MainError (List (String × String)) :=
  match readFile "metadata.json" with
  | none => .error (.readError "metadata.json")
  | some data =>
    match parseMeta data with
    | none => .error .parseError
    | some meta =>
      match readFile "index.template.html" with
      | none => .error (.readError "index.template.html")
      | some html_template => .ok [("index.html", generate meta html_template)]

/-- The writes a run performs: none on error. -/
def writesOf : Except MainError (List (String × String)) → List (String × String)
  | .ok w => w
  | .error _ => []

/-! ## Substring machinery for the fragment lemmas -/

theorem prefix_of_prefix_append {α : Type} [DecidableEq α] {p u v : List α}
    (h : p <+: u ++ v) (hl : p.length ≤ u.length) : p <+: u := by
  have hp := List.prefix_iff_eq_take.mp h
  rw [List.take_append_eq_append_take] at hp
  have h0 : p.length - u.length = 0 := by omega
  rw [h0, List.take_zero, List.append_nil] at hp
  rw [hp]
  exact List.take_prefix _ _

theorem suffix_append_split {α : Type} {t u v : List α} (h : t <:+ u ++ v) :
    t <:+ v ∨ ∃ u', u' <:+ u ∧ u' ≠ [] ∧ t = u' ++ v := by
  induction u with
  | nil => exact Or.inl (by simpa using h)
  | cons a u ih =>
      rw [List.cons_append, List.suffix_cons_iff] at h
      rcases h with rfl | h
      · exact Or.inr ⟨a :: u, List.suffix_refl _, by simp, rfl⟩
      · rcases ih h with h' | ⟨u', hu', hne, rfl⟩
        · exact Or.inl h'
        · exact Or.inr ⟨u', hu'.trans (List.suffix_cons a u), hne, rfl⟩

theorem head?_append_of_ne_nil {α : Type} {u v : List α} (h : u ≠ []) :
    (u ++ v).head? = u.head? := by
  cases u with
  | nil => exact absurd rfl h
  | cons a u => rfl

theorem string_data_eq_nil_iff (s : String) : s.data = [] ↔ s = "" := by
  constructor
  · intro h
    cases s with
    | mk data => rw [show data = [] from h]
  · intro h
    subst h
    rfl

theorem replaceGo_skip (pat rep : List Char) :
    ∀ (l : List Char) (k : Nat), l.length ≤ k → replaceGo pat rep k l = [] := by
  intro l
  induction l with
  | nil =>
      intro k _
      cases k <;> rfl
  | cons c cs ih =>
      intro k hk
      cases k with
      | zero => simp at hk
      | succ k => exact ih k (by simpa using hk)

theorem replaceGo_no_occ {pat : List Char} (rep : List Char) :
    ∀ l : List Char, ¬ (pat <:+: l) → replaceGo pat rep 0 l = l := by
  intro l
  induction l with
  | nil => intro _; rfl
  | cons c cs ih =>
      intro h
      have hpre : ¬ (pat.isPrefixOf (c :: cs) = true) := by
        intro hp
        exact h (List.IsPrefix.isInfix (List.isPrefixOf_iff_prefix.mp hp))
      unfold replaceGo
      rw [if_neg hpre, ih (fun hc => h (List.infix_cons hc))]

/-- `str::replace` leaves a string without an occurrence of the pattern
unchanged. -/
theorem strReplace_no_occ (s pat rep : String) (h : ¬ (pat.data <:+: s.data)) :
    strReplace s pat rep = s := by
  unfold strReplace
  rw [replaceGo_no_occ _ s.data h]

/-- `str::replace` on exactly the pattern yields exactly the replacement:
in particular the replacement text is never rescanned, even when the
pattern occurs inside it. -/
theorem strReplace_self (pat rep : String) (h : pat ≠ "") :
    strReplace pat pat rep = rep := by
  unfold strReplace
  have hd : pat.data ≠ [] := fun hnil => h ((string_data_eq_nil_iff pat).mp hnil)
  obtain ⟨p, ps, hps⟩ : ∃ p ps, pat.data = p :: ps := by
    cases hd' : pat.data with
    | nil => exact absurd hd' hd
    | cons p ps => exact ⟨p, ps, rfl⟩
  rw [hps]
  unfold replaceGo
  rw [if_pos (List.isPrefixOf_iff_prefix.mpr (List.prefix_refl _))]
  rw [replaceGo_skip _ _ ps ((p :: ps).length - 1) (by simp)]
  rw [List.append_nil]

theorem amp_entity_tails :
    ∀ u ∈ ("&amp;".data).tails, u.head? = some '&' → u = "&amp;".data := by
  decide

theorem lt_entity_tails :
    ∀ u ∈ ("&lt;".data).tails, u.head? = some '&' → u = "&lt;".data := by
  decide

theorem gt_entity_tails :
    ∀ u ∈ ("&gt;".data).tails, u.head? = some '&' → u = "&gt;".data := by
  decide

theorem quot_entity_tails :
    ∀ u ∈ ("&quot;".data).tails, u.head? = some '&' → u = "&quot;".data := by
  decide

theorem apos_entity_tails :
    ∀ u ∈ ("&#x27;".data).tails, u.head? = some '&' → u = "&#x27;".data := by
  decide

/-- Every suffix of an escaped string that starts with `&` starts with one of
the five entities: an `&` in the output is always the head of an entity. -/
theorem escape_amp_suffix (s : List Char) :
    ∀ t, t <:+ escape_htmlL s → t.head? = some '&' →
      "&amp;".data <+: t ∨ "&lt;".data <+: t ∨ "&gt;".data <+: t ∨
      "&quot;".data <+: t ∨ "&#x27;".data <+: t := by
  rw [escape_htmlL_eq_flatten]
  induction s with
  | nil =>
      intro t ht hh
      rw [List.map_nil, List.flatten_nil, List.suffix_nil] at ht
      subst ht
      simp at hh
  | cons c cs ih =>
      intro t ht hh
      rw [List.map_cons, List.flatten_cons] at ht
      rcases suffix_append_split ht with h' | ⟨u', hu', hne, rfl⟩
      · exact ih t h' hh
      · rw [head?_append_of_ne_nil hne] at hh
        unfold escChar at hu'
        split_ifs at hu' with h1 h2 h3 h4 h5
        · rw [amp_entity_tails u' ((List.mem_tails u' _).mpr hu') hh]
          exact Or.inl (List.prefix_append _ _)
        · rw [lt_entity_tails u' ((List.mem_tails u' _).mpr hu') hh]
          exact Or.inr (Or.inl (List.prefix_append _ _))
        · rw [gt_entity_tails u' ((List.mem_tails u' _).mpr hu') hh]
          exact Or.inr (Or.inr (Or.inl (List.prefix_append _ _)))
        · rw [quot_entity_tails u' ((List.mem_tails u' _).mpr hu') hh]
          exact Or.inr (Or.inr (Or.inr (Or.inl (List.prefix_append _ _))))
        · rw [apos_entity_tails u' ((List.mem_tails u' _).mpr hu') hh]
          exact Or.inr (Or.inr (Or.inr (Or.inr (List.prefix_append _ _))))
        · have : u' = [c] := by
            rw [List.suffix_cons_iff] at hu'
            rcases hu' with rfl | hu'
            · rfl
            · rw [List.suffix_nil] at hu'
              exact absurd hu' hne
          subst this
          simp only [List.head?_cons, Option.some.injEq] at hh
          exact absurd hh h1

/-- A concrete "literal" segment is safe for pattern `P` when every suffix
of it starting with `<` is long enough to refute `P` inside the segment
itself. Decidable, so provable by `decide` for concrete segments. -/
def litSafe (P seg : List Char) : Prop :=
  ∀ u ∈ seg.tails, u.head? = some '<' → P.length ≤ u.length ∧ ¬ (P <+: u)

instance (P seg : List Char) : Decidable (litSafe P seg) := by
  unfold litSafe
  infer_instance

/-- A pattern starting with `<` occurs nowhere in a concatenation of
segments, each of which either contains no `<` at all (escaped text) or is
a literal refuting the pattern within itself. -/
theorem flatten_no_pattern (P : List Char) (hP : P.head? = some '<')
    (segs : List (List Char))
    (hsafe : ∀ seg ∈ segs, '<' ∉ seg ∨ litSafe P seg) :
    ¬ (P <:+: segs.flatten) := by
  have key : ∀ (ss : List (List Char)), (∀ seg ∈ ss, '<' ∉ seg ∨ litSafe P seg) →
      ∀ t, t <:+ ss.flatten → P <+: t → False := by
    intro ss
    induction ss with
    | nil =>
        intro _ t hts hpt
        rw [List.flatten_nil, List.suffix_nil] at hts
        subst hts
        rw [List.prefix_nil] at hpt
        subst hpt
        simp at hP
    | cons seg rest ihsegs =>
        intro hs t hts hpt
        rw [List.flatten_cons] at hts
        have hthead : t.head? = some '<' := by
          rcases hpt with ⟨t', rfl⟩
          rw [head?_append_of_ne_nil]
          · exact hP
          · intro hnil
            rw [hnil] at hP
            simp at hP
        rcases suffix_append_split hts with h' | ⟨u', hu', hne, rfl⟩
        · exact ihsegs (fun s hs' => hs s (List.mem_cons_of_mem seg hs')) t h' hpt
        · have huhead : u'.head? = some '<' := by
            rw [head?_append_of_ne_nil hne] at hthead
            exact hthead
          rcases hs seg (List.mem_cons_self seg rest) with hlt | hsl
          · obtain ⟨x, xs, rfl⟩ : ∃ x xs, u' = x :: xs := by
              cases u' with
              | nil => exact absurd rfl hne
              | cons x xs => exact ⟨x, xs, rfl⟩
            simp only [List.head?_cons, Option.some.injEq] at huhead
            subst huhead
            exact hlt (List.IsSuffix.mem (List.mem_cons_self _ _) hu')
          · obtain ⟨hlen, hnp⟩ := hsl u' ((List.mem_tails u' seg).mpr hu') huhead
            exact hnp (prefix_of_prefix_append hpt hlen)
  intro hinf
  rcases List.infix_iff_prefix_suffix.mp hinf with ⟨t, hpt, hts⟩
  exact key segs hsafe t hts hpt

theorem dateLe_refl (a : Nat × Nat × Nat) : dateLe a a = true := by
  rw [dateLe_iff]
  omega

/-- `trim_end_matches('/')` strips exactly the trailing run of `/`
characters: the input is the output followed by some run of slashes, and
the output does not end in a slash. -/
theorem trim_end_slashes_spec (s : String) :
    (∃ n, s.data = (trim_end_slashes s).data ++ List.replicate n '/') ∧
    (trim_end_slashes s).data.getLast? ≠ some '/' := by
  constructor
  · refine ⟨(s.data.reverse.takeWhile (· == '/')).length, ?_⟩
    have hsplit : s.data = (s.data.reverse.dropWhile (· == '/')).reverse ++
        (s.data.reverse.takeWhile (· == '/')).reverse := by
      conv_lhs => rw [← List.reverse_reverse s.data,
        ← List.takeWhile_append_dropWhile (fun c => c == '/') s.data.reverse]
      rw [List.reverse_append]
    conv_lhs => rw [hsplit]
    congr 1
    have hrep : s.data.reverse.takeWhile (· == '/') =
        List.replicate (s.data.reverse.takeWhile (· == '/')).length '/' := by
      apply List.eq_replicate_of_mem
      intro b hb
      have := List.mem_takeWhile_imp hb
      simpa using this
    conv_lhs => rw [hrep]
    rw [List.reverse_replicate]
  · unfold trim_end_slashes
    rw [show (⟨(s.data.reverse.dropWhile (· == '/')).reverse⟩ : String).data
        = (s.data.reverse.dropWhile (· == '/')).reverse from rfl]
    rw [List.getLast?_reverse]
    intro hsome
    have h := List.head?_dropWhile_not (fun c => c == '/') s.data.reverse
    rw [hsome] at h
    simp at h

/-! ## The claims -/

/-- C1 counterexample: the dated issue with pdf "0000-00-09.pdf" (extracted
key (0, 0, 9)) is ordered AFTER the dateless issue with pdf "a.pdf"
(fallback key (0, 1, 1)), because the fallback key is not smaller than every
extracted key; the claim says every dateless issue comes after every dated
issue. -/
theorem C1_counterexample :
    findDate "0000-00-09.pdf".data = some (0, 0, 9) ∧
    findDate "a.pdf".data = none ∧
    sort_issues [⟨"B", "0000-00-09.pdf", "b.png", none⟩, ⟨"A", "a.pdf", "a.png", none⟩] =
      [⟨"A", "a.pdf", "a.png", none⟩, ⟨"B", "0000-00-09.pdf", "b.png", none⟩] := by
  decide

/-- C1 (amended): `sort_issues` stably sorts by the extracted (year, month,
day) key in descending lexicographic order: the result is a permutation of
the input, pairwise descending under the key order, stable (the subsequence
of issues with any fixed key is unchanged), and an issue whose pdf contains
no date pattern gets the fallback key (0, 1, 1) — so it is ordered after
every issue whose key is greater than (0, 1, 1), while anything placed
after it has key at most (0, 1, 1) (dated issues with year-0000 keys below
(0, 1, 1) end up after the dateless ones). -/
theorem C1_sort_issues_spec (l : List Issue) :
    (sort_issues l).Perm l ∧
    (sort_issues l).Pairwise (fun a b => issue_le a b = true) ∧
    (∀ k : Nat × Nat × Nat,
      (sort_issues l).filter (fun i => decide (get_date_tuple i.pdf = k)) =
        l.filter (fun i => decide (get_date_tuple i.pdf = k))) ∧
    (∀ i ∈ l, findDate i.pdf.data = none → get_date_tuple i.pdf = (0, 1, 1)) ∧
    (∀ a b : Issue, [a, b].Sublist (sort_issues l) → findDate a.pdf.data = none →
      dateLe (get_date_tuple b.pdf) (0, 1, 1) = true) := by
  refine ⟨sortBy_perm issue_le l,
    sortBy_pairwise issue_le issue_le_total (fun h1 h2 => issue_le_trans h1 h2) l,
    ?_, ?_, ?_⟩
  · intro k
    apply sortBy_filter
    intro x y hx hxy
    rw [decide_eq_true_eq] at hx
    rw [decide_eq_false_iff_not]
    intro hy
    have : issue_le x y = true := by
      unfold issue_le
      rw [hy, hx]
      exact dateLe_refl k
    rw [this] at hxy
    simp at hxy
  · intro i _ h
    unfold get_date_tuple
    rw [h]
    rfl
  · intro a b hsub ha
    have hpw := sortBy_pairwise issue_le issue_le_total
      (fun h1 h2 => issue_le_trans h1 h2) l
    have hab := List.pairwise_cons.mp (hpw.sublist hsub)
    have h1 : issue_le a b = true := hab.1 b (List.mem_singleton.mpr rfl)
    unfold issue_le at h1
    have hka : get_date_tuple a.pdf = (0, 1, 1) := by
      unfold get_date_tuple
      rw [ha]
      rfl
    rw [hka] at h1
    exact h1

/-- C3 counterexample: the input "&" contains one of the five characters,
yet the escaped output "&amp;" still contains the raw character `&`, so the
output is not free of all five raw characters. -/
theorem C3_counterexample :
    '&' ∈ "&".data ∧ escape_html "&" = "&amp;" ∧ '&' ∈ (escape_html "&").data := by
  decide

/-- C3 (amended): for every input string the escaped output contains no raw
`<`, `>`, `"` or `'`; the character `&` can remain in the output, but every
occurrence of `&` there is the head of one of the five entities
`&amp;`, `&lt;`, `&gt;`, `&quot;`, `&#x27;`. -/
theorem C3_escape_no_raw (s : String) :
    ('<' ∉ (escape_html s).data ∧ '>' ∉ (escape_html s).data ∧
     '"' ∉ (escape_html s).data ∧ apos ∉ (escape_html s).data) ∧
    (∀ t, t <:+ (escape_html s).data → t.head? = some '&' →
      "&amp;".data <+: t ∨ "&lt;".data <+: t ∨ "&gt;".data <+: t ∨
      "&quot;".data <+: t ∨ "&#x27;".data <+: t) :=
  ⟨escape_htmlL_no_special s.data, escape_amp_suffix s.data⟩

/-- C10: escaping is not idempotent: for any string containing one of the
five escaped characters, escaping the output again differs from escaping
once (the `&` introduced by escaping is re-encoded on the second pass). -/
theorem C10_escape_not_idempotent (s : String)
    (h : ∃ c, c ∈ s.data ∧ c ∈ specialChars) :
    escape_html (escape_html s) ≠ escape_html s := by
  obtain ⟨c, hc, hspec⟩ := h
  have hamp : '&' ∈ escape_htmlL s.data := amp_mem_escape hc hspec
  have hlt : (escape_htmlL s.data).length <
      (escape_htmlL (escape_htmlL s.data)).length := by
    rw [escape_htmlL_eq_flatten (escape_htmlL s.data)]
    exact flatten_escChar_length_gt hamp
  intro heq
  have hdata : escape_htmlL (escape_htmlL s.data) = escape_htmlL s.data :=
    congrArg String.data heq
  rw [hdata] at hlt
  exact lt_irrefl _ hlt

/-- C10 witness: the concrete input "&", whose single character is escaped;
re-escaping the output "&amp;" double-encodes the ampersand. -/
theorem C10_witness : escape_html (escape_html "&") ≠ escape_html "&" :=
  C10_escape_not_idempotent "&" ⟨'&', by decide, by decide⟩

/-- C4 counterexample: with site name "S" and logo "l.png", the logo
fragment's alt attribute value is "S Logo", not the site name "S" alone as
the claim states. -/
theorem C4_counterexample :
    logo_html ⟨"S", "D", "B", "l.png"⟩ = "<img src=\"l.png\" alt=\"S Logo\">" ∧
    logo_html ⟨"S", "D", "B", "l.png"⟩ ≠ "<img src=\"l.png\" alt=\"S\">" := by
  constructor
  · rfl
  · decide

/-- C4 (amended): for every SiteMeta with a non-empty logo string, the logo
fragment is exactly one img tag whose src attribute value is the logo string
and whose alt attribute value is the site name followed by " Logo"; for an
empty logo string the fragment is the empty string. Both values are
interpolated verbatim. -/
theorem C4_logo_fragment (sm : SiteMeta) :
    (sm.logo ≠ "" → logo_html sm =
      "<img src=\"" ++ sm.logo ++ "\" alt=\"" ++ sm.site_name ++ " Logo\">") ∧
    (sm.logo = "" → logo_html sm = "") := by
  constructor
  · intro h
    have hne : sm.logo.isEmpty = false := by
      rw [← Bool.not_eq_true, String.isEmpty_iff]
      exact h
    simp only [logo_html, hne, Bool.not_false, if_true]
  · intro h
    have he : sm.logo.isEmpty = true := by
      rw [String.isEmpty_iff]
      exact h
    simp [logo_html, he]

set_option maxRecDepth 40000 in
/-- C7: `build_issue_cards` on the empty sequence is exactly the fixed
empty-state fragment (which contains no card markup); on a non-empty
sequence it is one card per issue, in the given order, joined by single
newlines, each card containing the escaped cover path, the escaped title,
the escaped description — the fixed fallback literal when absent — and a
download link to the escaped pdf path. -/
theorem C7_issue_cards_spec (i : Issue) :
    build_issue_cards [] = empty_state_html ∧
    ¬ ("issue-card".data <:+: empty_state_html.data) ∧
    (∀ l : List Issue, l ≠ [] →
      build_issue_cards l = String.intercalate "\n" (l.map issue_card)) ∧
    issue_card i =
      "<div class=\"issue-card\">\n    <div class=\"image-container\">\n        <img src=\""
        ++ escape_html i.cover ++ "\" alt=\"" ++ escape_html i.title
        ++ "\" loading=\"lazy\">\n    </div>\n    <div class=\"content\">\n        <h3>"
        ++ escape_html i.title ++ "</h3>\n        <p>"
        ++ escape_html (i.description.getD "Download this issue to read the full content.")
        ++ "</p>\n        <a href=\"" ++ escape_html i.pdf
        ++ "\" class=\"download-btn\" download>Download PDF</a>\n    </div>\n</div>" ∧
    (i.description = none →
      issue_card i =
        "<div class=\"issue-card\">\n    <div class=\"image-container\">\n        <img src=\""
          ++ escape_html i.cover ++ "\" alt=\"" ++ escape_html i.title
          ++ "\" loading=\"lazy\">\n    </div>\n    <div class=\"content\">\n        <h3>"
          ++ escape_html i.title ++ "</h3>\n        <p>"
          ++ escape_html "Download this issue to read the full content."
          ++ "</p>\n        <a href=\"" ++ escape_html i.pdf
          ++ "\" class=\"download-btn\" download>Download PDF</a>\n    </div>\n</div>") := by
  refine ⟨rfl, by decide, ?_, rfl, ?_⟩
  · intro l hl
    have hne : l.isEmpty = false := by
      rw [← Bool.not_eq_true, List.isEmpty_iff]
      exact hl
    simp only [build_issue_cards, hne, Bool.false_eq_true, if_false]
  · intro h
    unfold issue_card
    rw [h]
    rfl

/-- C5: with a non-empty sorted sequence the social-tag fragment is built
from the first sorted issue; it carries og:title "title | site", the
og:description (issue description, or the site default when absent),
og:image and twitter:image as the base URL with its trailing slashes
stripped followed by "/" and the cover path, og:site_name, og:type
website, the fixed pa_IN locale, the twitter summary_large_image card tag
and the generic description tag. The trailing-slash stripping removes
exactly the trailing run of `/`. -/
theorem C5_og_tags_spec (sm : SiteMeta) (i : Issue) :
    (∀ (m : Metadata) (latest : Issue) (rest : List Issue),
      sort_issues m.issues = latest :: rest →
      og_tags_of m = format_og_tags m.site_meta latest) ∧
    format_og_tags sm i =
      "<meta property=\"og:title\" content=\"" ++ escape_html i.title ++ " | "
        ++ escape_html sm.site_name
        ++ "\">\n    <meta property=\"og:description\" content=\""
        ++ escape_html (i.description.getD sm.default_description)
        ++ "\">\n    <meta property=\"og:image\" content=\""
        ++ trim_end_slashes sm.base_url ++ "/" ++ escape_html i.cover
        ++ "\">\n    <meta property=\"og:site_name\" content=\"" ++ escape_html sm.site_name
        ++ "\">\n    <meta property=\"og:type\" content=\"website\">\n    <meta property=\"og:locale\" content=\"pa_IN\">\n    <meta name=\"twitter:card\" content=\"summary_large_image\">\n    <meta name=\"twitter:image\" content=\""
        ++ trim_end_slashes sm.base_url ++ "/" ++ escape_html i.cover
        ++ "\">\n    <meta name=\"description\" content=\""
        ++ escape_html (i.description.getD sm.default_description) ++ "\">" ∧
    (∃ n, sm.base_url.data =
      (trim_end_slashes sm.base_url).data ++ List.replicate n '/') ∧
    (trim_end_slashes sm.base_url).data.getLast? ≠ some '/' := by
  refine ⟨?_, rfl, (trim_end_slashes_spec sm.base_url).1,
    (trim_end_slashes_spec sm.base_url).2⟩
  intro m latest rest h
  simp [og_tags_of, h]

set_option maxRecDepth 100000 in
theorem default_og_segments (sm : SiteMeta) :
    (format_default_og_tags sm).data =
      ["<meta property=\"og:title\" content=\"".data,
       (escape_html sm.site_name).data,
       "\">\n    <meta property=\"og:description\" content=\"".data,
       (escape_html sm.default_description).data,
       "\">\n    <meta property=\"og:site_name\" content=\"".data,
       (escape_html sm.site_name).data,
       "\">\n    <meta property=\"og:type\" content=\"website\">\n    <meta property=\"og:locale\" content=\"pa_IN\">\n    <meta name=\"twitter:card\" content=\"summary\">\n    <meta name=\"description\" content=\"".data,
       (escape_html sm.default_description).data,
       "\">".data].flatten := by
  simp [format_default_og_tags, String.data_append, List.flatten_cons, List.flatten_nil,
    List.append_assoc]

set_option maxRecDepth 100000 in
/-- C8: with zero issues the social-tag fragment is the reduced set built
only from the site name and default description — og:title (site name
alone), og:description, og:site_name, og:type website, the fixed pa_IN
locale, a twitter summary card and the generic description tag — and it
contains no og:image or twitter:image tag for any site metadata. -/
theorem C8_default_og_tags_spec (sm : SiteMeta) :
    format_default_og_tags sm =
      "<meta property=\"og:title\" content=\"" ++ escape_html sm.site_name
        ++ "\">\n    <meta property=\"og:description\" content=\""
        ++ escape_html sm.default_description
        ++ "\">\n    <meta property=\"og:site_name\" content=\"" ++ escape_html sm.site_name
        ++ "\">\n    <meta property=\"og:type\" content=\"website\">\n    <meta property=\"og:locale\" content=\"pa_IN\">\n    <meta name=\"twitter:card\" content=\"summary\">\n    <meta name=\"description\" content=\""
        ++ escape_html sm.default_description ++ "\">" ∧
    (∀ m : Metadata, sort_issues m.issues = [] →
      og_tags_of m = format_default_og_tags m.site_meta) ∧
    ¬ ("<meta property=\"og:image\"".data <:+: (format_default_og_tags sm).data) ∧
    ¬ ("<meta name=\"twitter:image\"".data <:+: (format_default_og_tags sm).data) := by
  refine ⟨rfl, ?_, ?_, ?_⟩
  · intro m h
    simp [og_tags_of, h]
  · rw [default_og_segments sm]
    apply flatten_no_pattern _ (by decide)
    intro seg hseg
    simp only [List.mem_cons, List.not_mem_nil, or_false] at hseg
    rcases hseg with rfl | rfl | rfl | rfl | rfl | rfl | rfl | rfl | rfl
    · exact Or.inr (by decide)
    · exact Or.inl (escape_htmlL_no_special _).1
    · exact Or.inr (by decide)
    · exact Or.inl (escape_htmlL_no_special _).1
    · exact Or.inr (by decide)
    · exact Or.inl (escape_htmlL_no_special _).1
    · exact Or.inr (by decide)
    · exact Or.inl (escape_htmlL_no_special _).1
    · exact Or.inr (by decide)
  · rw [default_og_segments sm]
    apply flatten_no_pattern _ (by decide)
    intro seg hseg
    simp only [List.mem_cons, List.not_mem_nil, or_false] at hseg
    rcases hseg with rfl | rfl | rfl | rfl | rfl | rfl | rfl | rfl | rfl
    · exact Or.inr (by decide)
    · exact Or.inl (escape_htmlL_no_special _).1
    · exact Or.inr (by decide)
    · exact Or.inl (escape_htmlL_no_special _).1
    · exact Or.inr (by decide)
    · exact Or.inl (escape_htmlL_no_special _).1
    · exact Or.inr (by decide)
    · exact Or.inl (escape_htmlL_no_special _).1
    · exact Or.inr (by decide)

/-- C2 counterexample: the site name "A&B" is interpolated into the logo
fragment with its `&` raw — no "&amp;" appears anywhere in the fragment —
so site-name text in a rendered fragment is NOT escaped, contradicting the
claim that the page title is the single unescaped interpolation. -/
theorem C2_counterexample :
    logo_html ⟨"A&B", "News", "https://x", "x.png"⟩ =
      "<img src=\"x.png\" alt=\"A&B Logo\">" ∧
    ¬ ("&amp;".data <:+: (logo_html ⟨"A&B", "News", "https://x", "x.png"⟩).data) := by
  constructor
  · rfl
  · decide

/-- C2 (amended): the values interpolated by the card and social-tag
renderers — issue titles, descriptions, cover paths, pdf paths, and the
site name and default description inside the og fragments — pass through
`escape_html`; but the unescaped interpolations are not limited to the page
title: the base URL in og:image/twitter:image and both values of the logo
fragment (logo path and site name) are also inserted verbatim. The page
title itself replaces \x7b\x7bPAGE_TITLE\x7d\x7d verbatim (though a later
replacement still rewrites any \x7b\x7bLOGO\x7d\x7d inside it). -/
theorem C2_escaping_boundaries (m : Metadata) (sm : SiteMeta) (i : Issue) :
    issue_card i =
      "<div class=\"issue-card\">\n    <div class=\"image-container\">\n        <img src=\""
        ++ escape_html i.cover ++ "\" alt=\"" ++ escape_html i.title
        ++ "\" loading=\"lazy\">\n    </div>\n    <div class=\"content\">\n        <h3>"
        ++ escape_html i.title ++ "</h3>\n        <p>"
        ++ escape_html (i.description.getD "Download this issue to read the full content.")
        ++ "</p>\n        <a href=\"" ++ escape_html i.pdf
        ++ "\" class=\"download-btn\" download>Download PDF</a>\n    </div>\n</div>" ∧
    format_og_tags sm i =
      "<meta property=\"og:title\" content=\"" ++ escape_html i.title ++ " | "
        ++ escape_html sm.site_name
        ++ "\">\n    <meta property=\"og:description\" content=\""
        ++ escape_html (i.description.getD sm.default_description)
        ++ "\">\n    <meta property=\"og:image\" content=\""
        ++ trim_end_slashes sm.base_url ++ "/" ++ escape_html i.cover
        ++ "\">\n    <meta property=\"og:site_name\" content=\"" ++ escape_html sm.site_name
        ++ "\">\n    <meta property=\"og:type\" content=\"website\">\n    <meta property=\"og:locale\" content=\"pa_IN\">\n    <meta name=\"twitter:card\" content=\"summary_large_image\">\n    <meta name=\"twitter:image\" content=\""
        ++ trim_end_slashes sm.base_url ++ "/" ++ escape_html i.cover
        ++ "\">\n    <meta name=\"description\" content=\""
        ++ escape_html (i.description.getD sm.default_description) ++ "\">" ∧
    (sm.logo ≠ "" → logo_html sm =
      "<img src=\"" ++ sm.logo ++ "\" alt=\"" ++ sm.site_name ++ " Logo\">") ∧
    (¬ ("\x7b\x7bLOGO\x7d\x7d".data <:+: m.site_meta.site_name.data) →
      generate m "\x7b\x7bPAGE_TITLE\x7d\x7d" = m.site_meta.site_name) := by
  refine ⟨rfl, rfl, ?_, ?_⟩
  · intro h
    have hne : sm.logo.isEmpty = false := by
      rw [← Bool.not_eq_true, String.isEmpty_iff]
      exact h
    simp only [logo_html, hne, Bool.not_false, if_true]
  · intro h
    unfold generate
    rw [strReplace_no_occ "\x7b\x7bPAGE_TITLE\x7d\x7d" "\x7b\x7bOG_TAGS\x7d\x7d"
      (og_tags_of m) (by decide)]
    rw [strReplace_no_occ "\x7b\x7bPAGE_TITLE\x7d\x7d" "\x7b\x7bISSUE_CARDS\x7d\x7d"
      (build_issue_cards (sort_issues m.issues)) (by decide)]
    rw [strReplace_self "\x7b\x7bPAGE_TITLE\x7d\x7d" m.site_meta.site_name (by decide)]
    rw [strReplace_no_occ m.site_meta.site_name "\x7b\x7bLOGO\x7d\x7d"
      (logo_html m.site_meta) h]

/-- The metadata of the C6 counterexample: a single issue whose title is the
literal text "\x7b\x7bLOGO\x7d\x7d" and a non-empty logo. -/
def c6_meta : Metadata :=
  ⟨⟨"S", "D", "B", "L"⟩, [⟨"\x7b\x7bLOGO\x7d\x7d", "p.pdf", "c.png", some "d"⟩]⟩

set_option maxRecDepth 1000000 in
/-- C6 counterexample: with the template consisting only of the
ISSUE_CARDS token, the claim says the output is exactly the rendered cards
fragment (placeholder-shaped text inside a substituted fragment is not
replaced). But the cards fragment contains the text "\x7b\x7bLOGO\x7d\x7d"
(from the issue title), and the later LOGO replacement rewrites it, so the
output differs from the cards fragment. -/
theorem C6_counterexample :
    ("\x7b\x7bLOGO\x7d\x7d".data <:+:
      (build_issue_cards (sort_issues c6_meta.issues)).data) ∧
    generate c6_meta "\x7b\x7bISSUE_CARDS\x7d\x7d" ≠
      build_issue_cards (sort_issues c6_meta.issues) := by
  constructor
  · decide
  · decide

/-- C6 (amended): the compositor applies the four literal replacements
sequentially, in the order OG_TAGS, ISSUE_CARDS, PAGE_TITLE, LOGO. Each
single replacement is literal — a string without the token is unchanged —
and never rescans the text it inserts (a template equal to the token
becomes the fragment verbatim even when the fragment contains the token);
but tokens inside a fragment substituted by an earlier replacement are
still rewritten by the later replacements. -/
theorem C6_template_substitution (m : Metadata) (t : String) :
    generate m t =
      strReplace
        (strReplace
          (strReplace (strReplace t "\x7b\x7bOG_TAGS\x7d\x7d" (og_tags_of m))
            "\x7b\x7bISSUE_CARDS\x7d\x7d" (build_issue_cards (sort_issues m.issues)))
          "\x7b\x7bPAGE_TITLE\x7d\x7d" m.site_meta.site_name)
        "\x7b\x7bLOGO\x7d\x7d" (logo_html m.site_meta) ∧
    (∀ s pat rep : String, ¬ (pat.data <:+: s.data) → strReplace s pat rep = s) ∧
    (∀ pat rep : String, pat ≠ "" → strReplace pat pat rep = rep) :=
  ⟨rfl, fun s pat rep h => strReplace_no_occ s pat rep h,
    fun pat rep h => strReplace_self pat rep h⟩

/-- C9: a failed metadata read, a failed parse, or a failed template read
each aborts the run with that error, and no write is performed on any
error; only a run in which both reads and the parse succeed produces the
single output write. -/
theorem C9_error_propagation (readFile : String → Option String)
    (parseMeta : String → Option Metadata) :
    (readFile "metadata.json" = none →
      mainModel readFile parseMeta = .error (.readError "metadata.json")) ∧
    (∀ data, readFile "metadata.json" = some data → parseMeta data = none →
      mainModel readFile parseMeta = .error .parseError) ∧
    (∀ data meta, readFile "metadata.json" = some data → parseMeta data = some meta →
      readFile "index.template.html" = none →
      mainModel readFile parseMeta = .error (.readError "index.template.html")) ∧
    (∀ e, mainModel readFile parseMeta = .error e →
      writesOf (mainModel readFile parseMeta) = []) ∧
    (∀ data meta tmpl, readFile "metadata.json" = some data →
      parseMeta data = some meta → readFile "index.template.html" = some tmpl →
      mainModel readFile parseMeta = .ok [("index.html", generate meta tmpl)]) := by
  refine ⟨?_, ?_, ?_, ?_, ?_⟩
  · intro h
    simp [mainModel, h]
  · intro data h1 h2
    simp [mainModel, h1, h2]
  · intro data meta h1 h2 h3
    simp [mainModel, h1, h2, h3]
  · intro e he
    rw [he]
    rfl
  · intro data meta tmpl h1 h2 h3
    simp [mainModel, h1, h2, h3]
